import Mathlib

/-!
# Verification of the reactive observation core (`ReactiveObserve.ts`)

A shallow embedding of the reactive core of the toolkit-mvvm plugin:
the proxy registry (`reactive` / `raw`), the trap handlers for plain
objects, indexed sequences and keyed collections, the dependency store
(`registerReactionForOperation`, `getReactionsForOperation`,
`releaseReaction`) and the reaction engine (`runReactionWrap`,
`unobserve`).

Objects are identified by numeric ids; JS values are modelled by `Val`;
the JS `WeakMap`s `rawToProxy` / `proxyToRaw` become `Option`-valued
maps; `undefined` is `Val.undefined`.  Triggering
(`queueReactionsForOperation`) is modelled by returning the list of
emitted `Operation`s together with the set of reactions each operation
reaches (`getReactionsForOperation`): in the source every emitted
operation is delivered to exactly that set.
-/

namespace ReactiveObserve

/-- Identity of a JS object (raw objects and proxy wrappers alike). -/
abbrev ObjId := Nat

/-- Identity of a reaction function. -/
abbrev RId := Nat

/-- A JS value, as far as the core inspects values: `undefined`,
numbers, strings, booleans, and object references.  Value identity
(`===`) is equality of `Val`. -/
inductive Val where
  | undefined : Val
  | num : Int → Val
  | str : String → Val
  | bool : Bool → Val
  | obj : ObjId → Val
deriving DecidableEq, Repr

/-- A dependency-store key: a string property key, the reserved
`ITERATION_KEY` symbol used for `iterate`-kind registrations, or — for
keyed collections, whose entries are keyed by arbitrary values — a
collection key value. -/
inductive Key where
  | s : String → Key
  | iterationKey : Key
  | v : Val → Key
deriving DecidableEq, Repr

/-- Source `Operation.type` in the source: one of
`get | iterate | add | set | delete | clear | has | array`. -/
inductive OpType where
  | get | iterate | add | set | delete | clear | has | array
deriving DecidableEq, Repr

/-- The operation descriptor passed to reactions.  Fields the source
leaves `undefined` are `none`; `insertedStart` / `deletedStart` are
initialised to `-1` by `doArrayKeys` and are `none` for non-array
operations. -/
structure Operation where
  type : OpType
  target : ObjId
  key : Option Key := none
  value : Option Val := none
  oldValue : Option Val := none
  inserted : Option (List Val) := none
  insertedStart : Option Int := none
  deleted : Option (List Val) := none
  deletedStart : Option Int := none
deriving DecidableEq, Repr

/-! ## Proxy registry (`reactive`, `createReactive`, `raw`)

The source keeps two `WeakMap`s, `rawToProxy` and `proxyToRaw`, and a
per-raw-object `connectionStore` entry allocated by `storeObservable`.
`shouldInstrument` is a per-object predicate (built-in global
constructors not registered in `handlers` are passed through); it is
part of the static environment here. -/

/-- Static environment: which objects pass `shouldInstrument`. -/
structure Env where
  shouldInstrument : ObjId → Bool

/-- The registry state: the two `WeakMap`s, the set of objects that
received a `connectionStore` entry, and a supply of fresh ids standing
for `new Proxy(...)` allocation. -/
structure RegState where
  rawToProxy : ObjId → Option ObjId
  proxyToRaw : ObjId → Option ObjId
  hasStoreEntry : ObjId → Bool
  nextId : ObjId

/-- The empty registry (module load time), with object ids below `n`
already in use by raw objects. -/
def RegState.init (n : ObjId) : RegState :=
  { rawToProxy := fun _ => none
    proxyToRaw := fun _ => none
    hasStoreEntry := fun _ => false
    nextId := n }

/-- Source `createReactive`: allocate a proxy, store both directions of the
mapping, and allocate the dependency-store entry for the raw object. -/
def createReactive (s : RegState) (raw : ObjId) : ObjId × RegState :=
  let p := s.nextId
  (p,
    { rawToProxy := fun x => if x = raw then some p else s.rawToProxy x
      proxyToRaw := fun x => if x = p then some raw else s.proxyToRaw x
      hasStoreEntry := fun x => if x = raw then true else s.hasStoreEntry x
      nextId := s.nextId + 1 })

/-- Source `reactive`: return wrappers and non-instrumented objects unchanged,
return an existing wrapper when there is one, otherwise create one. -/
def reactive (env : Env) (s : RegState) (raw : ObjId) : ObjId × RegState :=
  if (s.proxyToRaw raw).isSome || !env.shouldInstrument raw then
    (raw, s)
  else
    match s.rawToProxy raw with
    | some exitProxy => (exitProxy, s)
    | none => createReactive s raw

/-- Source `raw(proxy)`: `proxyToRaw.get(proxy)` — `none` models the
`undefined` the `WeakMap` returns on a miss. -/
def rawOf (s : RegState) (proxy : ObjId) : Option ObjId :=
  s.proxyToRaw proxy

/-- The value `raw(v)` actually evaluates to in JS: `undefined` when the
lookup misses (also for primitive arguments, which a `WeakMap` maps to
`undefined`). -/
def rawVal (s : RegState) (v : Val) : Val :=
  match v with
  | .obj i => match s.proxyToRaw i with
              | some r => .obj r
              | none => .undefined
  | _ => .undefined

/-- Registry well-formedness: the two maps are inverse bijections
between disjoint sets of ids, wrappers are never themselves keys of
`rawToProxy`, only instrumentable objects get wrappers, and every id at
or above `nextId` is untouched. -/
structure RegWF (env : Env) (s : RegState) : Prop where
  r2p_p2r : ∀ o p, s.rawToProxy o = some p → s.proxyToRaw p = some o
  p2r_r2p : ∀ p o, s.proxyToRaw p = some o → s.rawToProxy o = some p
  raw_not_proxy : ∀ o, (s.rawToProxy o).isSome → s.proxyToRaw o = none
  proxy_not_raw : ∀ p, (s.proxyToRaw p).isSome → s.rawToProxy p = none
  instr : ∀ o p, s.rawToProxy o = some p → env.shouldInstrument o = true
  fresh_r2p : ∀ x, s.nextId ≤ x → s.rawToProxy x = none
  fresh_p2r : ∀ x, s.nextId ≤ x → s.proxyToRaw x = none
  lt_r2p : ∀ o p, s.rawToProxy o = some p → o < s.nextId
  lt_p2r : ∀ p o, s.proxyToRaw p = some o → o < s.nextId

/-! ## Plain-object strategy (`baseHandlers.set`, `baseHandlers.deleteProperty`)

A plain raw object is a finite map from property keys to values;
`hasOwnProperty.call(target, key)` is definedness, `target[key]` is
lookup defaulting to `undefined`.  A trap returns the updated target
together with the list of operations it hands to
`queueReactionsForOperation` (empty when it triggers nothing). -/

/-- Contents of a plain raw object. -/
abbrev PObj := Key → Option Val

/-- The de-proxying step at the top of `baseHandlers.set`:
`if (isObject(value)) value = proxyToRaw.get(value) || value`. -/
def deproxyVal (proxyToRaw : ObjId → Option ObjId) (v : Val) : Val :=
  match v with
  | .obj i => .obj ((proxyToRaw i).getD i)
  | _ => v

/-- Source `baseHandlers.set`: de-proxy the value, write it, and trigger
`add` for a fresh key, `set` for a changed existing key, nothing for an
identical write. -/
def baseSet (proxyToRaw : ObjId → Option ObjId) (targetId : ObjId)
    (target : PObj) (key : Key) (value0 : Val) : PObj × List Operation :=
  let value := deproxyVal proxyToRaw value0
  let hadKey := (target key).isSome
  let oldValue := (target key).getD .undefined
  let target1 : PObj := fun k => if k = key then some value else target k
  if !hadKey then
    (target1, [{ type := .add, target := targetId, key := some key, value := some value }])
  else if oldValue ≠ value then
    (target1, [{ type := .set, target := targetId, key := some key,
                 value := some value, oldValue := some oldValue }])
  else
    (target1, [])

/-- Source `baseHandlers.deleteProperty`: remove the key and trigger `delete`
only when the key was present. -/
def baseDeleteProperty (targetId : ObjId) (target : PObj) (key : Key) :
    PObj × List Operation :=
  let hadKey := (target key).isSome
  let oldValue := (target key).getD .undefined
  let target1 : PObj := fun k => if k = key then none else target k
  if hadKey then
    (target1, [{ type := .delete, target := targetId, key := some key,
                 oldValue := some oldValue }])
  else
    (target1, [])

/-! ## Keyed-collection strategy (`instrumentations.set`, `instrumentations.add`)

A raw `Map` is a finite map from key values to values; a raw `Set` is
its insertion-ordered element list.  Note that, unlike
`baseHandlers.set`, these instrumentations pass their arguments to the
native `proto.set` / `proto.add` without de-proxying. -/

/-- Contents of a raw `Map`: collection keys are arbitrary values. -/
abbrev MapObj := Val → Option Val

/-- Source `instrumentations.set` on a `Map` wrapper: the value is stored
exactly as given (`proto.set.apply(target, arguments)`). -/
def instrumentationsSet (targetId : ObjId) (target : MapObj) (key : Val)
    (value : Val) : MapObj × List Operation :=
  let hadKey := (target key).isSome
  let oldValue := (target key).getD .undefined
  let target1 : MapObj := fun k => if k = key then some value else target k
  if !hadKey then
    (target1, [{ type := .add, target := targetId, key := some (.v key) }])
  else if value ≠ oldValue then
    (target1, [{ type := .set, target := targetId, key := some (.v key) }])
  else
    (target1, [])

/-- Source `instrumentations.add` on a `Set` wrapper: the element is stored
exactly as given (`proto.add.apply(target, arguments)`). -/
def instrumentationsAdd (targetId : ObjId) (target : List Val) (key : Val) :
    List Val × List Operation :=
  let hadKey := key ∈ target
  let target1 := if hadKey then target else target ++ [key]
  if !hadKey then
    (target1, [{ type := .add, target := targetId, key := some (.v key) }])
  else
    (target1, [])

/-! ## Indexed-sequence strategy (`arrayHandlers`, `doArrayKeys`)

`arrayHandlers` defines only a `get` trap.  Function-valued properties
are replaced by a closure that delegates to the native method on the
raw target and then runs `doArrayKeys`; `indexOf` / `lastIndexOf`
instead search with the de-proxied argument and publish nothing.
Because there is no `set` trap, property assignment through an array
wrapper uses the default `[[Set]]`, writing straight to the target. -/

/-- The value a native array method returned: a plain value, or the
fresh array `splice` returns. -/
inductive ArrResult where
  | v : Val → ArrResult
  | list : List Val → ArrResult
deriving DecidableEq, Repr

/-- The elements `doArrayKeys` reads out of a result: `[result]` for
the single-value methods (`pop`, `shift`), the result array itself for
`splice`. -/
def ArrResult.asElems : ArrResult → List Val
  | .v x => [x]
  | .list l => l

/-- JS `Number(·)` coercion, on the fragment the model exercises:
`doArrayKeys` applies it to the `splice` start/delete-count arguments,
which `arrayMethodCall` below always supplies as numbers (`NaN` from
non-numeric coercion is outside the model). -/
def Val.toNumber : Val → Int
  | .num n => n
  | .bool b => if b then 1 else 0
  | _ => 0

/-- Source `doArrayKeys`: compute the array operation descriptor after the
native method has run (`targetAfter` is the target mutated by the
native call) and publish a `type := array` operation carrying it.
Fields untouched by the switch stay `undefined` / `-1`. -/
def doArrayKeys (targetId : ObjId) (targetAfter : List Val) (key : String)
    (args : List Val) (result : ArrResult) : Operation :=
  if key = "push" then
    { type := .array, target := targetId, key := some (.s key)
      inserted := some args
      insertedStart := some ((targetAfter.length : Int) - args.length)
      deleted := none, deletedStart := some (-1) }
  else if key = "pop" then
    { type := .array, target := targetId, key := some (.s key)
      inserted := none, insertedStart := some (-1)
      deleted := some result.asElems
      deletedStart := some (targetAfter.length : Int) }
  else if key = "shift" then
    { type := .array, target := targetId, key := some (.s key)
      inserted := none, insertedStart := some (-1)
      deleted := some result.asElems, deletedStart := some 0 }
  else if key = "unshift" then
    { type := .array, target := targetId, key := some (.s key)
      inserted := some args, insertedStart := some 0
      deleted := none, deletedStart := some (-1) }
  else if key = "splice" then
    let startIdx := (args.headD .undefined).toNumber
    let deleteCount := ((args.drop 1).headD .undefined).toNumber
    let items := args.drop 2
    { type := .array, target := targetId, key := some (.s key)
      inserted := some items
      insertedStart := some (if 0 ≤ startIdx then startIdx else (targetAfter.length : Int))
      deleted := some result.asElems
      deletedStart := some (if 0 < deleteCount then startIdx else -1) }
  else
    { type := .array, target := targetId, key := some (.s key)
      inserted := none, insertedStart := some (-1)
      deleted := none, deletedStart := some (-1) }

/-- Native `Array.prototype.push`: append, return the new length. -/
def nativePush (t : List Val) (items : List Val) : List Val × Val :=
  (t ++ items, .num ((t ++ items).length : Int))

/-- Native `Array.prototype.pop`: drop the last element, return it
(`undefined` on an empty array). -/
def nativePop (t : List Val) : List Val × Val :=
  (t.dropLast, t.getLast?.getD .undefined)

/-- Native `Array.prototype.shift`: drop the first element, return it. -/
def nativeShift (t : List Val) : List Val × Val :=
  (t.drop 1, t.head?.getD .undefined)

/-- Native `Array.prototype.unshift`: prepend, return the new length. -/
def nativeUnshift (t : List Val) (items : List Val) : List Val × Val :=
  (items ++ t, .num ((items ++ t).length : Int))

/-- Native `Array.prototype.splice`: remove `deleteCount` elements at
`start` (both clamped as the standard prescribes), insert `items`
there, and return the removed elements. -/
def nativeSplice (t : List Val) (start deleteCount : Int) (items : List Val) :
    List Val × List Val :=
  let len : Int := t.length
  let actualStart : Nat := (if start < 0 then max (len + start) 0 else min start len).toNat
  let actualDelete : Nat := (min (max deleteCount 0) (len - actualStart)).toNat
  (t.take actualStart ++ items ++ t.drop (actualStart + actualDelete),
   (t.drop actualStart).take actualDelete)

/-- Native `Array.prototype.indexOf` (strict-equality search, `-1` on a
miss). -/
def nativeIndexOf : List Val → Val → Int
  | [], _ => -1
  | a :: rest, x =>
      if a = x then 0
      else
        let r := nativeIndexOf rest x
        if r < 0 then -1 else r + 1

/-- Native `Array.prototype.lastIndexOf`. -/
def nativeLastIndexOf (t : List Val) (x : Val) : Int :=
  let r := nativeIndexOf t.reverse x
  if r < 0 then -1 else (t.length : Int) - 1 - r

/-- A method call through an array wrapper, as the closure returned by
`arrayHandlers.get` dispatches it.  The interception-relevant methods
are explicit; `other` covers every remaining function-valued property
(`forEach`, `map`, `includes`, `join`, `sort`, …), whose native
behaviour on the raw target is the supplied `native` function and whose
extra arguments are `args`. -/
inductive ArrMethod where
  | push (items : List Val)
  | pop
  | shift
  | unshift (items : List Val)
  | splice (start : Int) (deleteCount : Int) (items : List Val)
  | indexOf (x : Val)
  | lastIndexOf (x : Val)
  | other (name : String) (args : List Val) (native : List Val → List Val × Val)

/-- The property key the method was looked up under. -/
def ArrMethod.name : ArrMethod → String
  | .push _ => "push"
  | .pop => "pop"
  | .shift => "shift"
  | .unshift _ => "unshift"
  | .splice _ _ _ => "splice"
  | .indexOf _ => "indexOf"
  | .lastIndexOf _ => "lastIndexOf"
  | .other n _ _ => n

/-- Calling a function-valued property through the array wrapper: the
closure from `arrayHandlers.get`.  `indexOf` / `lastIndexOf` de-proxy
their search argument, run natively, and return without publishing;
every other method first delegates to the native behaviour on the raw
target, then publishes the `doArrayKeys` operation.  Returns the
mutated target, the call result, and the published operations. -/
def arrayMethodCall (proxyToRaw : ObjId → Option ObjId) (targetId : ObjId)
    (t : List Val) (m : ArrMethod) : List Val × ArrResult × List Operation :=
  match m with
  | .indexOf x =>
      let x1 := deproxyVal proxyToRaw x
      (t, .v (.num (nativeIndexOf t x1)), [])
  | .lastIndexOf x =>
      let x1 := deproxyVal proxyToRaw x
      (t, .v (.num (nativeLastIndexOf t x1)), [])
  | .push items =>
      let (t1, r) := nativePush t items
      (t1, .v r, [doArrayKeys targetId t1 "push" items (.v r)])
  | .pop =>
      let (t1, r) := nativePop t
      (t1, .v r, [doArrayKeys targetId t1 "pop" [] (.v r)])
  | .shift =>
      let (t1, r) := nativeShift t
      (t1, .v r, [doArrayKeys targetId t1 "shift" [] (.v r)])
  | .unshift items =>
      let (t1, r) := nativeUnshift t items
      (t1, .v r, [doArrayKeys targetId t1 "unshift" items (.v r)])
  | .splice start deleteCount items =>
      let (t1, removed) := nativeSplice t start deleteCount items
      (t1, .list removed,
        [doArrayKeys targetId t1 "splice" ([.num start, .num deleteCount] ++ items) (.list removed)])
  | .other name args native =>
      let (t1, r) := native t
      (t1, .v r, [doArrayKeys targetId t1 name args (.v r)])

/-- Property assignment through an array wrapper.  `arrayHandlers`
declares no `set` trap, so the default proxy `[[Set]]` applies: the
write goes straight to the raw target (out-of-range indices extend the
array as JS does) and no operation is ever published. -/
def arrayProxySetIndex (t : List Val) (i : Nat) (v : Val) :
    List Val × List Operation :=
  (if i < t.length then t.set i v
   else t ++ List.replicate (i - t.length) Val.undefined ++ [v],
   [])

/-! ## Dependency store and reaction engine

`connectionStore` maps each raw object and key to the set of reactions
registered there (modelled as a duplicate-free list); each reaction
carries its `cleaners` (the store slots it is a member of, identified
by their `(raw, key)` address — a slot lives at exactly one such
address), its `unobserved` flag, and the module keeps the global
`reactionStack`. -/

structure DepState where
  connectionStore : ObjId → Key → List RId
  cleaners : RId → List (ObjId × Key)
  unobserved : RId → Bool
  reactionStack : List RId

/-- Source `registerReactionForOperation`: under the `ITERATION_KEY` for
`iterate`-kind operations, add the reaction to the slot for
`(target, key)` and record the slot in its cleaners — only if it is
not already a member. -/
def registerReactionForOperation (s : DepState) (r : RId) (target : ObjId)
    (key : Key) (ty : OpType) : DepState :=
  let k := if ty = .iterate then Key.iterationKey else key
  if r ∈ s.connectionStore target k then s
  else
    { s with
      connectionStore := fun o k1 =>
        if o = target ∧ k1 = k then s.connectionStore o k1 ++ [r]
        else s.connectionStore o k1
      cleaners := fun r1 =>
        if r1 = r then s.cleaners r1 ++ [(target, k)] else s.cleaners r1 }

/-- Source `releaseReaction`: delete the reaction from every slot listed in
its cleaners, then reset the cleaners list. -/
def releaseReaction (s : DepState) (r : RId) : DepState :=
  { s with
    connectionStore := fun o k =>
      if (o, k) ∈ s.cleaners r then (s.connectionStore o k).filter (fun x => x ≠ r)
      else s.connectionStore o k
    cleaners := fun r1 => if r1 = r then [] else s.cleaners r1 }

/-- Source `getReactionsForOperation`: the reactions in the slot for the
operation key, plus — for `add`/`delete`/`clear`/`array` operations —
those in the structural slot (`length` for arrays, `ITERATION_KEY`
otherwise).  The source accumulates them into a fresh `Set`; the list
below enumerates that set in insertion order. -/
def getReactionsForOperation (s : DepState) (isArrayTarget : Bool)
    (op : Operation) : List RId :=
  let base := match op.key with
    | some k => s.connectionStore op.target k
    | none => []
  if op.type = .add ∨ op.type = .delete ∨ op.type = .clear ∨ op.type = .array then
    let structKey := if isArrayTarget then Key.s "length" else Key.iterationKey
    base ++ (s.connectionStore op.target structKey).filter (fun x => x ∉ base)
  else base

/-- The trigger step: `queueReactionsForOperation` invokes every affected reaction with
the operation: the list of `(reaction, operation)` calls it issues. -/
def queueReactionsForOperation (s : DepState) (isArrayTarget : Bool)
    (op : Operation) : List (RId × Operation) :=
  (getReactionsForOperation s isArrayTarget op).map (fun r => (r, op))

/-- Source `getRunningReaction`: the top (last pushed) of the reaction stack. -/
def getRunningReaction (s : DepState) : Option RId :=
  s.reactionStack.getLast?

/-- Source `registerRunningReaction`: register the currently running reaction
for the operation, if any reaction is running. -/
def registerRunningReaction (s : DepState) (target : ObjId) (key : Key)
    (ty : OpType) : DepState :=
  match getRunningReaction s with
  | some r => registerReactionForOperation s r target key ty
  | none => s

/-- The heap the reaction bodies read: property values per object. -/
abbrev Heap := ObjId → Key → Val

/-- A reaction body, abstracted by its observable behaviour: given the
heap, the `(object, key)` reads it performs through wrappers (each of
which calls `registerRunningReaction` with a `get` operation), and
whether it then raises an exception. -/
abbrev Body := Heap → List (ObjId × Key) × Bool

/-- Perform the tracked reads of a body in order. -/
def runBodyReads (s : DepState) (reads : List (ObjId × Key)) : DepState :=
  reads.foldl (fun st p => registerRunningReaction st p.1 p.2 .get) s

/-- Source `runReactionWrap`: an unobserved reaction falls through to plain
execution; a reaction already on the stack returns immediately without
running; otherwise release the previous dependencies, push, run the
body, and pop in a `finally` that runs even when the body throws.
Returns the state, whether the body ran, and whether it threw. -/
def runReactionWrap (s : DepState) (h : Heap) (r : RId) (body : Body) :
    DepState × Bool × Bool :=
  if s.unobserved r then
    let (reads, threw) := body h
    (runBodyReads s reads, true, threw)
  else if r ∈ s.reactionStack then
    (s, false, false)
  else
    let s1 := releaseReaction s r
    let s2 := { s1 with reactionStack := s1.reactionStack ++ [r] }
    let (reads, threw) := body h
    let s3 := runBodyReads s2 reads
    ({ s3 with reactionStack := s3.reactionStack.dropLast }, true, threw)

/-- Source `unobserve`: idempotent; mark the reaction `unobserved` and release
its dependencies. -/
def unobserve (s : DepState) (r : RId) : DepState :=
  if s.unobserved r then s
  else
    releaseReaction
      { s with unobserved := fun x => if x = r then true else s.unobserved x } r

/-- Dependency-store well-formedness: the cleaners of a reaction list every
slot it is a member of.  Established by `registerReactionForOperation`
(which records the slot as it inserts) and maintained by
`releaseReaction` and `unobserve`. -/
def DepWF (s : DepState) : Prop :=
  ∀ r o k, r ∈ s.connectionStore o k → (o, k) ∈ s.cleaners r

/-! ## Theorems -/

/-- The initial registry is well-formed. -/
theorem regWF_init (env : Env) (n : ObjId) : RegWF env (RegState.init n) := by
  constructor <;> intro _ <;> simp [RegState.init]

/-- Claim C1: for every raw object `o` (instrumentable, not itself a
wrapper, allocated), wrapping is idempotent and round-trips:
`reactive (reactive o) === reactive o` and `raw (reactive o) === o`;
re-wrapping a raw object that already has a wrapper returns the
existing wrapper, and wrapping a value that is already a wrapper
returns it (and the registry) unchanged. -/
theorem C1_reactive_idempotent_roundtrip (env : Env) (s : RegState) (o : ObjId)
    (hwf : RegWF env s) (hinstr : env.shouldInstrument o = true)
    (hraw : s.proxyToRaw o = none) (ho : o < s.nextId) :
    (reactive env (reactive env s o).2 (reactive env s o).1).1 = (reactive env s o).1 ∧
    rawOf (reactive env s o).2 (reactive env s o).1 = some o ∧
    (reactive env (reactive env s o).2 o).1 = (reactive env s o).1 ∧
    (∀ w r, s.proxyToRaw w = some r → reactive env s w = (w, s)) := by
  have hwrap : ∀ (s1 : RegState) w r, s1.proxyToRaw w = some r →
      reactive env s1 w = (w, s1) := by
    intro s1 w r hw
    simp [reactive, hw]
  cases hr : s.rawToProxy o with
  | some p =>
      have h1 : reactive env s o = (p, s) := by
        simp [reactive, hraw, hinstr, hr]
      have hp : s.proxyToRaw p = some o := hwf.r2p_p2r o p hr
      refine ⟨?_, ?_, ?_, fun w r hw => hwrap s w r hw⟩
      · rw [h1]; rw [hwrap s p o hp]
      · rw [h1]; exact hp
      · rw [h1]; simp [h1]
  | none =>
      have h1 : reactive env s o = (s.nextId, (createReactive s o).2) := by
        simp [reactive, hraw, hinstr, hr, createReactive]
      have hne : o ≠ s.nextId := Nat.ne_of_lt ho
      have hp : (createReactive s o).2.proxyToRaw s.nextId = some o := by
        simp [createReactive]
      refine ⟨?_, ?_, ?_, fun w r hw => hwrap s w r hw⟩
      · rw [h1]; rw [hwrap (createReactive s o).2 s.nextId o hp]
      · rw [h1]; exact hp
      · rw [h1]
        have hp2r : (createReactive s o).2.proxyToRaw o = none := by
          simp [createReactive, hne, hraw]
        have hr2p : (createReactive s o).2.rawToProxy o = some s.nextId := by
          simp [createReactive]
        simp [reactive, hp2r, hinstr, hr2p]

/-- Witness for C1 at a concrete registry: one raw object `0`, empty
registry, everything instrumentable. -/
theorem C1_witness :
    (reactive ⟨fun _ => true⟩
      (reactive ⟨fun _ => true⟩ (RegState.init 1) 0).2
      (reactive ⟨fun _ => true⟩ (RegState.init 1) 0).1).1
        = (reactive ⟨fun _ => true⟩ (RegState.init 1) 0).1 ∧
    rawOf (reactive ⟨fun _ => true⟩ (RegState.init 1) 0).2
      (reactive ⟨fun _ => true⟩ (RegState.init 1) 0).1 = some 0 ∧
    (reactive ⟨fun _ => true⟩
      (reactive ⟨fun _ => true⟩ (RegState.init 1) 0).2 0).1
        = (reactive ⟨fun _ => true⟩ (RegState.init 1) 0).1 ∧
    (∀ w r, (RegState.init 1).proxyToRaw w = some r →
      reactive ⟨fun _ => true⟩ (RegState.init 1) w = (w, RegState.init 1)) :=
  C1_reactive_idempotent_roundtrip ⟨fun _ => true⟩ (RegState.init 1) 0
    (regWF_init ⟨fun _ => true⟩ 1) rfl rfl (by decide)

/-- Claim C2, counterexample: the claim says `raw` returns a never-wrapped
input unchanged; in the code `raw` is a bare `proxyToRaw.get`, so on the
never-wrapped object `0` it evaluates to `undefined`, not to the input. -/
theorem C2_counterexample :
    rawVal (RegState.init 1) (Val.obj 0) = Val.undefined ∧
    Val.undefined ≠ Val.obj 0 := by
  exact ⟨rfl, by decide⟩

/-- Claim C2, amended: `raw(v)` returns `undefined` for every input that
was never produced as a wrapper by the registry (also for primitive
inputs), and returns the specific stored raw object for every wrapper
the registry produced. -/
theorem C2_raw_lookup (s : RegState) :
    (∀ v, (∀ i, v = Val.obj i → s.proxyToRaw i = none) → rawVal s v = Val.undefined) ∧
    (∀ w o, s.proxyToRaw w = some o → rawVal s (Val.obj w) = Val.obj o) := by
  constructor
  · intro v hv
    cases v with
    | obj i => simp [rawVal, hv i rfl]
    | undefined => rfl
    | num n => rfl
    | str t => rfl
    | bool b => rfl
  · intro w o hw
    simp [rawVal, hw]

/-- Witness for the amended C2 statement: in the registry after wrapping
object `0` (wrapper id `1`), `raw` maps the never-wrapped value `obj 0`
to `undefined` and the wrapper `obj 1` to `obj 0`. -/
theorem C2_raw_lookup_witness :
    rawVal (createReactive (RegState.init 1) 0).2 (Val.obj 0) = Val.undefined ∧
    rawVal (createReactive (RegState.init 1) 0).2 (Val.obj 1) = Val.obj 0 := by
  refine ⟨(C2_raw_lookup (createReactive (RegState.init 1) 0).2).1 (Val.obj 0) ?_,
          (C2_raw_lookup (createReactive (RegState.init 1) 0).2).2 1 0 ?_⟩
  · intro i hi
    cases hi
    rfl
  · rfl

/-- Claim C3: for a plain-object wrapper, an identical (by identity,
after de-proxying) write triggers nothing; a write to an absent key
triggers exactly one `add` operation (never `set`); a write changing an
existing key triggers exactly one `set` operation; deleting an absent
key triggers nothing; deleting a present key triggers exactly one
`delete` operation. -/
theorem C3_plain_object_write_delete (pr : ObjId → Option ObjId) (tid : ObjId)
    (target : PObj) (key : Key) (v : Val) :
    (target key = some (deproxyVal pr v) → (baseSet pr tid target key v).2 = []) ∧
    (target key = none →
      (baseSet pr tid target key v).2 =
        [{ type := .add, target := tid, key := some key,
           value := some (deproxyVal pr v) }]) ∧
    (∀ cur, target key = some cur → cur ≠ deproxyVal pr v →
      (baseSet pr tid target key v).2 =
        [{ type := .set, target := tid, key := some key,
           value := some (deproxyVal pr v), oldValue := some cur }]) ∧
    (target key = none → (baseDeleteProperty tid target key).2 = []) ∧
    (∀ cur, target key = some cur →
      (baseDeleteProperty tid target key).2 =
        [{ type := .delete, target := tid, key := some key,
           oldValue := some cur }]) := by
  refine ⟨?_, ?_, ?_, ?_, ?_⟩
  · intro hcur
    simp [baseSet, hcur]
  · intro habs
    simp [baseSet, habs]
  · intro cur hcur hne
    simp [baseSet, hcur, hne]
  · intro habs
    simp [baseDeleteProperty, habs]
  · intro cur hcur
    simp [baseDeleteProperty, hcur]

/-- Witness for C3 on the object `{a: 1}`: writing `1` to `a` triggers
nothing, writing to absent `b` triggers `add`, writing `2` to `a`
triggers `set`, deleting absent `b` triggers nothing, deleting `a`
triggers `delete`. -/
theorem C3_witness :
    (baseSet (fun _ => none) 0
      (fun k => if k = Key.s "a" then some (Val.num 1) else none)
      (Key.s "a") (Val.num 1)).2 = [] ∧
    (baseSet (fun _ => none) 0
      (fun k => if k = Key.s "a" then some (Val.num 1) else none)
      (Key.s "b") (Val.num 2)).2 =
        [{ type := .add, target := 0, key := some (Key.s "b"),
           value := some (Val.num 2) }] ∧
    (baseSet (fun _ => none) 0
      (fun k => if k = Key.s "a" then some (Val.num 1) else none)
      (Key.s "a") (Val.num 2)).2 =
        [{ type := .set, target := 0, key := some (Key.s "a"),
           value := some (Val.num 2), oldValue := some (Val.num 1) }] ∧
    (baseDeleteProperty 0
      (fun k => if k = Key.s "a" then some (Val.num 1) else none)
      (Key.s "b")).2 = [] ∧
    (baseDeleteProperty 0
      (fun k => if k = Key.s "a" then some (Val.num 1) else none)
      (Key.s "a")).2 =
        [{ type := .delete, target := 0, key := some (Key.s "a"),
           oldValue := some (Val.num 1) }] := by
  refine ⟨?_, ?_, ?_, ?_, ?_⟩
  · exact (C3_plain_object_write_delete (fun _ => none) 0 _ (Key.s "a") (Val.num 1)).1
      (by decide)
  · exact (C3_plain_object_write_delete (fun _ => none) 0 _ (Key.s "b") (Val.num 2)).2.1
      (by decide)
  · exact (C3_plain_object_write_delete (fun _ => none) 0 _ (Key.s "a")
      (Val.num 2)).2.2.1 (Val.num 1) (by decide) (by decide)
  · exact (C3_plain_object_write_delete (fun _ => none) 0 _ (Key.s "b")
      (Val.undefined)).2.2.2.1 (by decide)
  · exact (C3_plain_object_write_delete (fun _ => none) 0 _ (Key.s "a")
      (Val.undefined)).2.2.2.2 (Val.num 1) (by decide)

/-- Claim C4, counterexample: the claim says assigning a different value
to an existing index of an array wrapper triggers `set`-kind reactions;
`arrayHandlers` declares no `set` trap, so on `[1,2,3]` the assignment
`arr[0] = 5` writes through to the target and publishes no operation at
all — in particular no `set`. -/
theorem C4_counterexample :
    arrayProxySetIndex [Val.num 1, Val.num 2, Val.num 3] 0 (Val.num 5)
      = ([Val.num 5, Val.num 2, Val.num 3], []) ∧
    Val.num 5 ≠ Val.num 1 := by
  exact ⟨by decide, by decide⟩

/-- Claim C4, amended: element *reads* through an array wrapper register
dependencies like the plain-object strategy, but element *assignment*
is not intercepted (`arrayHandlers` has only a `get` trap): the write
goes straight to the raw target and triggers no reaction of any kind —
neither `set` nor `add`, regardless of whether the index existed or the
value changed.  Only the intercepted method calls publish operations. -/
theorem C4_array_index_write_not_intercepted (t : List Val) (i : Nat) (v : Val) :
    (arrayProxySetIndex t i v).2 = [] := rfl

/-- Claim C5: on a reactive `[1,2,3]`, `push(4)` publishes an operation
with inserted items `[4]` at start index `3`, no deleted items, and
`-1` for the unused deleted-start; `splice(1,1,9)` publishes inserted
items `[9]` at start index `1` and deleted items `[2]` at deleted start
index `1`. -/
theorem C5_array_op_descriptors :
    arrayMethodCall (fun _ => none) 7 [Val.num 1, Val.num 2, Val.num 3]
      (.push [Val.num 4]) =
      ([Val.num 1, Val.num 2, Val.num 3, Val.num 4], .v (.num 4),
       [{ type := .array, target := 7, key := some (.s "push"),
          inserted := some [Val.num 4], insertedStart := some 3,
          deleted := none, deletedStart := some (-1) }]) ∧
    arrayMethodCall (fun _ => none) 7 [Val.num 1, Val.num 2, Val.num 3]
      (.splice 1 1 [Val.num 9]) =
      ([Val.num 1, Val.num 9, Val.num 3], .list [Val.num 2],
       [{ type := .array, target := 7, key := some (.s "splice"),
          inserted := some [Val.num 9], insertedStart := some 1,
          deleted := some [Val.num 2], deletedStart := some 1 }]) := by
  exact ⟨by decide, by decide⟩

/-- Claim C6, counterexample: the claim says every value-storing
operation through a wrapper stores the de-proxied raw form.  With
wrapper `1` registered for raw object `0`, storing the wrapper value
`obj 1` into a `Map` wrapper via `instrumentations.set` stores `obj 1`
itself — not its raw form `obj 0` — because `instrumentations.set`
passes `arguments` to `proto.set` without de-proxying. -/
theorem C6_counterexample :
    (instrumentationsSet 5 (fun _ => none) (Val.str "k") (Val.obj 1)).1
      (Val.str "k") = some (Val.obj 1) ∧
    deproxyVal (fun i => if i = 1 then some 0 else none) (Val.obj 1) = Val.obj 0 ∧
    Val.obj 1 ≠ Val.obj 0 := by
  refine ⟨by decide, by decide, by decide⟩

/-- Claim C6, amended: only the plain-object strategy de-proxies before
storing: `baseHandlers.set` always stores `deproxyVal` of the written
value, while the keyed-collection `set` / `add` instrumentations store
their argument exactly as given, so a wrapper passed to them is stored
un-de-proxied inside the raw collection. -/
theorem C6_dewrap_plain_only (pr : ObjId → Option ObjId) (tid : ObjId)
    (target : PObj) (key : Key) (v : Val) (m : MapObj) (mk : Val)
    (st : List Val) :
    (baseSet pr tid target key v).1 key = some (deproxyVal pr v) ∧
    (instrumentationsSet tid m mk v).1 mk = some v ∧
    (instrumentationsAdd tid st v).1 = (if v ∈ st then st else st ++ [v]) := by
  refine ⟨?_, ?_, ?_⟩
  · simp only [baseSet]
    split <;> (try split) <;> simp
  · simp only [instrumentationsSet]
    split <;> (try split) <;> simp
  · simp only [instrumentationsAdd]
    split <;> simp_all

/-! ### Reaction-engine lemmas -/

/-- Registering a dependency never touches the reaction stack. -/
theorem register_reactionStack_eq (s : DepState) (r : RId) (target : ObjId)
    (key : Key) (ty : OpType) :
    (registerReactionForOperation s r target key ty).reactionStack
      = s.reactionStack := by
  simp only [registerReactionForOperation]
  split <;> split <;> rfl

/-- Registering a dependency never touches the `unobserved` flags. -/
theorem register_unobserved_eq (s : DepState) (r : RId) (target : ObjId)
    (key : Key) (ty : OpType) :
    (registerReactionForOperation s r target key ty).unobserved
      = s.unobserved := by
  simp only [registerReactionForOperation]
  split <;> split <;> rfl

/-- Lemma: `registerRunningReaction` never touches the reaction stack. -/
theorem registerRunning_reactionStack_eq (s : DepState) (target : ObjId)
    (key : Key) (ty : OpType) :
    (registerRunningReaction s target key ty).reactionStack
      = s.reactionStack := by
  simp only [registerRunningReaction]
  cases hg : getRunningReaction s
  · rfl
  · exact register_reactionStack_eq s _ target key ty

/-- Lemma: `registerRunningReaction` never touches the `unobserved` flags. -/
theorem registerRunning_unobserved_eq (s : DepState) (target : ObjId)
    (key : Key) (ty : OpType) :
    (registerRunningReaction s target key ty).unobserved = s.unobserved := by
  simp only [registerRunningReaction]
  cases hg : getRunningReaction s
  · rfl
  · exact register_unobserved_eq s _ target key ty

/-- The tracked reads of a body never touch the reaction stack. -/
theorem runBodyReads_reactionStack_eq (reads : List (ObjId × Key)) (s : DepState) :
    (runBodyReads s reads).reactionStack = s.reactionStack := by
  induction reads generalizing s with
  | nil => rfl
  | cons p rest ih =>
      simp only [runBodyReads, List.foldl_cons] at ih ⊢
      rw [ih, registerRunning_reactionStack_eq]

/-- The tracked reads of a body never touch the `unobserved` flags. -/
theorem runBodyReads_unobserved_eq (reads : List (ObjId × Key)) (s : DepState) :
    (runBodyReads s reads).unobserved = s.unobserved := by
  induction reads generalizing s with
  | nil => rfl
  | cons p rest ih =>
      simp only [runBodyReads, List.foldl_cons] at ih ⊢
      rw [ih, registerRunning_unobserved_eq]

/-- Releasing a reaction never touches the reaction stack. -/
theorem release_reactionStack_eq (s : DepState) (r : RId) :
    (releaseReaction s r).reactionStack = s.reactionStack := rfl

/-- Claim C8: a reaction body that raises an exception still has its
entry unwound from the running stack (the source pops in `finally`):
the stack after the failed invocation equals the stack before it. -/
theorem C8_stack_unwound_on_throw (s : DepState) (h : Heap) (r : RId)
    (body : Body) (_hthrew : (runReactionWrap s h r body).2.2 = true) :
    (runReactionWrap s h r body).1.reactionStack = s.reactionStack := by
  rcases hbody : body h with ⟨reads, threw⟩
  by_cases hu : s.unobserved r
  · simp only [runReactionWrap, hu, if_pos, hbody]
    exact runBodyReads_reactionStack_eq reads s
  · by_cases hmem : r ∈ s.reactionStack
    · simp only [runReactionWrap, hu, hmem]
      simp
    · simp only [runReactionWrap, hu, hmem]
      simp only [Bool.false_eq_true, if_false, if_pos, hbody]
      rw [runBodyReads_reactionStack_eq]
      simp [release_reactionStack_eq]

/-- Witness for C8: a body that throws immediately, invoked on an empty
engine state, leaves the stack empty. -/
theorem C8_witness :
    (runReactionWrap
      ⟨fun _ _ => [], fun _ => [], fun _ => false, []⟩
      (fun _ _ => Val.undefined) 0 (fun _ => ([], true))).1.reactionStack = [] :=
  C8_stack_unwound_on_throw
    ⟨fun _ _ => [], fun _ => [], fun _ => false, []⟩
    (fun _ _ => Val.undefined) 0 (fun _ => ([], true)) rfl

/-- After `releaseReaction`, the released reaction belongs to no slot:
its cleaners listed every slot it was in (`DepWF`). -/
theorem release_not_mem (s : DepState) (r : RId) (hwf : DepWF s)
    (o : ObjId) (k : Key) :
    r ∉ (releaseReaction s r).connectionStore o k := by
  simp only [releaseReaction]
  by_cases hc : (o, k) ∈ s.cleaners r
  · rw [if_pos hc]
    intro hmem
    rcases List.mem_filter.mp hmem with ⟨_, hne⟩
    simp at hne
  · rw [if_neg hc]
    intro hmem
    exact hc (hwf r o k hmem)

/-- Lemma: `releaseReaction` only ever removes reactions from slots. -/
theorem release_preserves_not_mem (s : DepState) (r r1 : RId) (o : ObjId)
    (k : Key) (h : r ∉ s.connectionStore o k) :
    r ∉ (releaseReaction s r1).connectionStore o k := by
  simp only [releaseReaction]
  split
  · intro hmem
    exact h (List.mem_filter.mp hmem).1
  · exact h

/-- Registering reaction `r1` cannot add `r` to a slot when `r1 ≠ r` or
when the slot is not the one being registered. -/
theorem register_not_mem (s : DepState) (r r1 : RId) (target : ObjId)
    (key : Key) (ty : OpType) (o : ObjId) (k : Key)
    (h : r ∉ s.connectionStore o k)
    (hx : r1 ≠ r ∨
      ¬(o = target ∧ k = (if ty = .iterate then Key.iterationKey else key))) :
    r ∉ (registerReactionForOperation s r1 target key ty).connectionStore o k := by
  simp only [registerReactionForOperation]
  by_cases hmem : r1 ∈ s.connectionStore target
      (if ty = .iterate then Key.iterationKey else key)
  · rw [if_pos hmem]
    exact h
  · rw [if_neg hmem]
    show r ∉ (if o = target ∧ k = (if ty = .iterate then Key.iterationKey else key)
      then s.connectionStore o k ++ [r1] else s.connectionStore o k)
    by_cases hok : o = target ∧ k = (if ty = .iterate then Key.iterationKey else key)
    · rw [if_pos hok]
      intro hm
      rcases List.mem_append.mp hm with hm1 | hm1
      · exact h hm1
      · rcases hx with hx | hx
        · exact hx (List.mem_singleton.mp hm1).symm
        · exact hx hok
    · rw [if_neg hok]
      exact h

/-- Lemma: `registerRunningReaction` cannot add `r` to a slot when `r` is not
the running reaction or the slot is not the one being read. -/
theorem registerRunning_not_mem (s : DepState) (r : RId) (target : ObjId)
    (key : Key) (ty : OpType) (o : ObjId) (k : Key)
    (h : r ∉ s.connectionStore o k)
    (hx : getRunningReaction s ≠ some r ∨
      ¬(o = target ∧ k = (if ty = .iterate then Key.iterationKey else key))) :
    r ∉ (registerRunningReaction s target key ty).connectionStore o k := by
  simp only [registerRunningReaction]
  cases hg : getRunningReaction s with
  | none => exact h
  | some r1 =>
      refine register_not_mem s r r1 target key ty o k h ?_
      rcases hx with hx | hx
      · rw [hg] at hx
        exact Or.inl fun he => hx (by rw [he])
      · exact Or.inr hx

/-- The tracked reads of a run cannot add `r` to a slot when `r` is not the
running reaction or none of the reads touches the slot. -/
theorem runBodyReads_not_mem (reads : List (ObjId × Key)) (s : DepState)
    (r : RId) (o : ObjId) (k : Key)
    (h : r ∉ s.connectionStore o k)
    (hx : getRunningReaction s ≠ some r ∨ ∀ p ∈ reads, ¬(o = p.1 ∧ k = p.2)) :
    r ∉ (runBodyReads s reads).connectionStore o k := by
  induction reads generalizing s with
  | nil => exact h
  | cons p rest ih =>
      simp only [runBodyReads, List.foldl_cons] at ih ⊢
      refine ih (registerRunningReaction s p.1 p.2 .get) ?_ ?_
      · refine registerRunning_not_mem s r p.1 p.2 .get o k h ?_
        rcases hx with hx | hx
        · exact Or.inl hx
        · refine Or.inr ?_
          have := hx p (List.mem_cons_self p rest)
          simpa using this
      · rcases hx with hx | hx
        · refine Or.inl ?_
          have hst : getRunningReaction (registerRunningReaction s p.1 p.2 .get)
              = getRunningReaction s := by
            simp only [getRunningReaction, registerRunning_reactionStack_eq]
          rw [hst]
          exact hx
        · exact Or.inr fun q hq => hx q (List.mem_cons_of_mem p hq)

/-- Claim C7: the dependency-set memberships a still-live reaction
recorded earlier are released before every re-invocation: after a re-run
whose body does not read `(o, k)`, the reaction is no longer in the
slot for `(o, k)`, so no subsequent `set` operation on that key invokes
it — a reaction that reads `o.a` only while `o.flag` is true stops
being notified about `o.a` once it re-runs with the flag false. -/
theorem C7_branch_pruning (s : DepState) (hp : Heap) (r : RId) (body : Body)
    (o : ObjId) (k : Key) (hwf : DepWF s)
    (hlive : s.unobserved r = false) (hnotrun : r ∉ s.reactionStack)
    (hnoread : ∀ p ∈ (body hp).1, ¬(o = p.1 ∧ k = p.2)) :
    r ∉ (runReactionWrap s hp r body).1.connectionStore o k ∧
    (∀ op : Operation, op.type = .set → op.target = o → op.key = some k →
      ∀ b : Bool,
        r ∉ getReactionsForOperation (runReactionWrap s hp r body).1 b op) := by
  rcases hbody : body hp with ⟨reads, threw⟩
  rw [hbody] at hnoread
  have hnm : r ∉ (runReactionWrap s hp r body).1.connectionStore o k := by
    simp only [runReactionWrap, hlive, Bool.false_eq_true, if_false, hnotrun,
      hbody]
    refine runBodyReads_not_mem reads _ r o k ?_ (Or.inr hnoread)
    exact release_not_mem s r hwf o k
  refine ⟨hnm, fun op htype htarget hkey b => ?_⟩
  simp only [getReactionsForOperation, htype, htarget, hkey]
  simpa using hnm

/-- Witness for C7: reaction `5` previously read both `flag` and `a` of
object `0`; with the flag now false its body reads only `flag`, and
after the re-run it is no longer in the slot for `a`. -/
theorem C7_witness :
    5 ∉ (runReactionWrap
      ⟨fun o1 k1 => if o1 = 0 ∧ (k1 = Key.s "flag" ∨ k1 = Key.s "a")
          then [5] else [],
        fun r1 => if r1 = 5 then [(0, Key.s "flag"), (0, Key.s "a")] else [],
        fun _ => false, []⟩
      (fun _ _ => Val.bool false) 5
      (fun hh => (if hh 0 (Key.s "flag") = Val.bool true
          then [(0, Key.s "flag"), (0, Key.s "a")]
          else [(0, Key.s "flag")], false))).1.connectionStore 0 (Key.s "a") := by
  refine (C7_branch_pruning _ _ 5 _ 0 (Key.s "a") ?_ rfl ?_ ?_).1
  · intro r1 o1 k1 hm
    have hm1 : r1 ∈ (if o1 = 0 ∧ (k1 = Key.s "flag" ∨ k1 = Key.s "a")
        then [5] else ([] : List RId)) := hm
    show (o1, k1) ∈ (if r1 = 5
        then [((0 : ObjId), Key.s "flag"), (0, Key.s "a")] else [])
    by_cases hc : o1 = 0 ∧ (k1 = Key.s "flag" ∨ k1 = Key.s "a")
    · rw [if_pos hc] at hm1
      have hr1 : r1 = 5 := List.mem_singleton.mp hm1
      subst hr1
      rcases hc with ⟨ho1, hk1⟩
      subst ho1
      simp only [if_pos rfl]
      rcases hk1 with hk1 | hk1 <;> subst hk1 <;> simp
    · rw [if_neg hc] at hm1
      exact absurd hm1 (List.not_mem_nil r1)
  · exact List.not_mem_nil 5
  · intro p hp
    have hp1 : p ∈ [((0 : ObjId), Key.s "flag")] := by
      simpa using hp
    have hp2 : p = (0, Key.s "flag") := List.mem_singleton.mp hp1
    subst hp2
    decide

/-- Lemma: `unobserve` on an already-stopped reaction is the identity. -/
theorem unobserve_of_unobserved (t : DepState) (r : RId)
    (ht : t.unobserved r = true) : unobserve t r = t := by
  simp [unobserve, ht]

/-- After `unobserve`, the reaction is marked stopped. -/
theorem unobserve_unobserved (s : DepState) (r : RId) :
    (unobserve s r).unobserved r = true := by
  by_cases hu : s.unobserved r
  · simp [unobserve, hu]
  · simp [unobserve, hu, releaseReaction]

/-- A reaction in no slot is in no triggered set: the affected
reactions of every operation are drawn from the slots of the store. -/
theorem not_mem_getReactions (s : DepState) (b : Bool) (op : Operation)
    (r : RId) (hall : ∀ o k, r ∉ s.connectionStore o k) :
    r ∉ getReactionsForOperation s b op := by
  simp only [getReactionsForOperation]
  intro hm
  split at hm
  · rcases List.mem_append.mp hm with hm1 | hm1
    · cases hk : op.key <;> rw [hk] at hm1
      · exact absurd hm1 (List.not_mem_nil r)
      · exact hall _ _ hm1
    · exact absurd (List.mem_filter.mp hm1).1 (hall _ _)
  · cases hk : op.key <;> rw [hk] at hm
    · exact absurd hm (List.not_mem_nil r)
    · exact hall _ _ hm

/-- Invoking a stopped reaction falls through to plain execution:
no release, no stack push, the reads of the body register against whatever
reaction is currently running (none of which is this one). -/
theorem runReactionWrap_unobserved (t : DepState) (h : Heap) (r : RId)
    (body : Body) (ht : t.unobserved r = true) :
    runReactionWrap t h r body
      = (runBodyReads t (body h).1, true, (body h).2) := by
  rcases hb : body h with ⟨reads, threw⟩
  simp [runReactionWrap, ht, hb]

/-- Once a reaction is stopped, out of every slot and off the stack, no
engine step — any reaction invocation — revives it: the flag stays set,
it never enters the stack, and it enters no slot. -/
theorem runReactionWrap_preserves_stopped (s1 : DepState) (h : Heap)
    (body : Body) (r r1 : RId)
    (hdead : s1.unobserved r = true) (hstack : r ∉ s1.reactionStack)
    (hcs : ∀ o k, r ∉ s1.connectionStore o k) :
    (runReactionWrap s1 h r1 body).1.unobserved r = true ∧
    r ∉ (runReactionWrap s1 h r1 body).1.reactionStack ∧
    (∀ o k, r ∉ (runReactionWrap s1 h r1 body).1.connectionStore o k) := by
  rcases hb : body h with ⟨reads, threw⟩
  by_cases hu : s1.unobserved r1
  · have h2 : (runReactionWrap s1 h r1 body).1 = runBodyReads s1 reads := by
      simp [runReactionWrap, hu, hb]
    rw [h2]
    refine ⟨?_, ?_, fun o k => ?_⟩
    · rw [runBodyReads_unobserved_eq]; exact hdead
    · rw [runBodyReads_reactionStack_eq]; exact hstack
    · refine runBodyReads_not_mem reads s1 r o k (hcs o k) (Or.inl fun hg => ?_)
      exact hstack (List.mem_of_mem_getLast? hg)
  · by_cases hmem : r1 ∈ s1.reactionStack
    · have h2 : (runReactionWrap s1 h r1 body).1 = s1 := by
        simp [runReactionWrap, hu, hmem]
      rw [h2]
      exact ⟨hdead, hstack, hcs⟩
    · have hne : r1 ≠ r := by
        intro he
        rw [he, hdead] at hu
        exact hu rfl
      have h2 : (runReactionWrap s1 h r1 body).1
          = { runBodyReads
                { releaseReaction s1 r1 with
                  reactionStack := (releaseReaction s1 r1).reactionStack ++ [r1] }
                reads with
              reactionStack :=
                (runBodyReads
                  { releaseReaction s1 r1 with
                    reactionStack := (releaseReaction s1 r1).reactionStack ++ [r1] }
                  reads).reactionStack.dropLast } := by
        simp [runReactionWrap, hu, hmem, hb]
      rw [h2]
      refine ⟨?_, ?_, fun o k => ?_⟩
      · show (runBodyReads _ reads).unobserved r = true
        rw [runBodyReads_unobserved_eq]
        exact hdead
      · show r ∉ (runBodyReads _ reads).reactionStack.dropLast
        rw [runBodyReads_reactionStack_eq]
        show r ∉ ((releaseReaction s1 r1).reactionStack ++ [r1]).dropLast
        rw [release_reactionStack_eq]
        simpa using hstack
      · show r ∉ (runBodyReads _ reads).connectionStore o k
        refine runBodyReads_not_mem reads _ r o k ?_ (Or.inl ?_)
        · exact release_preserves_not_mem s1 r r1 o k (hcs o k)
        · show ((releaseReaction s1 r1).reactionStack ++ [r1]).getLast? ≠ some r
          simp [hne]

/-- Claim C9: `unobserve` immediately releases every dependency-set
membership of the reaction and is idempotent; afterwards the affected
set of any mutation never contains it, invoking other reactions never
re-adds it, and calling its handle directly still executes the
underlying body, untracked (no release, no stack push). -/
theorem C9_unobserve_stop_semantics (s : DepState) (r : RId)
    (hwf : DepWF s) (hlive : s.unobserved r = false) :
    (∀ o k, r ∉ (unobserve s r).connectionStore o k) ∧
    unobserve (unobserve s r) r = unobserve s r ∧
    (∀ (b : Bool) (op : Operation),
      r ∉ getReactionsForOperation (unobserve s r) b op) ∧
    (∀ (h : Heap) (body : Body),
      runReactionWrap (unobserve s r) h r body
        = (runBodyReads (unobserve s r) (body h).1, true, (body h).2)) ∧
    (∀ (s1 : DepState) (h : Heap) (body : Body) (r1 : RId),
      s1.unobserved r = true → r ∉ s1.reactionStack →
      (∀ o k, r ∉ s1.connectionStore o k) →
      (runReactionWrap s1 h r1 body).1.unobserved r = true ∧
      r ∉ (runReactionWrap s1 h r1 body).1.reactionStack ∧
      (∀ o k, r ∉ (runReactionWrap s1 h r1 body).1.connectionStore o k)) := by
  have hall : ∀ o k, r ∉ (unobserve s r).connectionStore o k := by
    intro o k
    have h1 : unobserve s r
        = releaseReaction
            { s with unobserved := fun x => if x = r then true else s.unobserved x }
            r := by
      simp [unobserve, hlive]
    rw [h1]
    exact release_not_mem _ r (fun r2 o2 k2 hm => hwf r2 o2 k2 hm) o k
  refine ⟨hall, unobserve_of_unobserved _ r (unobserve_unobserved s r),
    fun b op => not_mem_getReactions _ b op r hall,
    fun h body => runReactionWrap_unobserved _ h r body (unobserve_unobserved s r),
    fun s1 h body r1 => runReactionWrap_preserves_stopped s1 h body r r1⟩

/-- Witness for C9: reaction `4` tracks key `a` of object `0`; after
`unobserve` it is out of the slot, re-stopping is a no-op, a `set` on
`(0, a)` reaches no copy of it, and a direct invocation falls through
to plain (untracked) execution of the body. -/
theorem C9_witness :
    4 ∉ (unobserve
      ⟨fun o1 k1 => if o1 = 0 ∧ k1 = Key.s "a" then [4] else [],
        fun r1 => if r1 = 4 then [(0, Key.s "a")] else [],
        fun _ => false, []⟩ 4).connectionStore 0 (Key.s "a") ∧
    unobserve (unobserve
      ⟨fun o1 k1 => if o1 = 0 ∧ k1 = Key.s "a" then [4] else [],
        fun r1 => if r1 = 4 then [(0, Key.s "a")] else [],
        fun _ => false, []⟩ 4) 4
      = unobserve
      ⟨fun o1 k1 => if o1 = 0 ∧ k1 = Key.s "a" then [4] else [],
        fun r1 => if r1 = 4 then [(0, Key.s "a")] else [],
        fun _ => false, []⟩ 4 ∧
    4 ∉ getReactionsForOperation (unobserve
      ⟨fun o1 k1 => if o1 = 0 ∧ k1 = Key.s "a" then [4] else [],
        fun r1 => if r1 = 4 then [(0, Key.s "a")] else [],
        fun _ => false, []⟩ 4) false
      { type := .set, target := 0, key := some (Key.s "a") } ∧
    runReactionWrap (unobserve
      ⟨fun o1 k1 => if o1 = 0 ∧ k1 = Key.s "a" then [4] else [],
        fun r1 => if r1 = 4 then [(0, Key.s "a")] else [],
        fun _ => false, []⟩ 4)
      (fun _ _ => Val.undefined) 4 (fun _ => ([(0, Key.s "a")], false))
      = (runBodyReads (unobserve
          ⟨fun o1 k1 => if o1 = 0 ∧ k1 = Key.s "a" then [4] else [],
            fun r1 => if r1 = 4 then [(0, Key.s "a")] else [],
            fun _ => false, []⟩ 4) [(0, Key.s "a")], true, false) := by
  have hwfW : DepWF
      ⟨fun o1 k1 => if o1 = 0 ∧ k1 = Key.s "a" then [4] else [],
        fun r1 => if r1 = 4 then [(0, Key.s "a")] else [],
        fun _ => false, []⟩ := by
    intro r1 o1 k1 hm
    have hm1 : r1 ∈ (if o1 = 0 ∧ k1 = Key.s "a" then [4] else ([] : List RId)) := hm
    show (o1, k1) ∈ (if r1 = 4 then [((0 : ObjId), Key.s "a")] else [])
    by_cases hc : o1 = 0 ∧ k1 = Key.s "a"
    · rw [if_pos hc] at hm1
      have hr1 : r1 = 4 := List.mem_singleton.mp hm1
      subst hr1
      rcases hc with ⟨ho1, hk1⟩
      subst ho1
      subst hk1
      simp
    · rw [if_neg hc] at hm1
      exact absurd hm1 (List.not_mem_nil r1)
  obtain ⟨ha, hb, hc, hd, _⟩ := C9_unobserve_stop_semantics _ 4 hwfW rfl
  exact ⟨ha 0 (Key.s "a"), hb,
    hc false { type := .set, target := 0, key := some (Key.s "a") },
    hd (fun _ _ => Val.undefined) (fun _ => ([(0, Key.s "a")], false))⟩

/-- Every operation `doArrayKeys` publishes has kind `array`. -/
theorem doArrayKeys_type_array (tid : ObjId) (t : List Val) (k : String)
    (args : List Val) (res : ArrResult) :
    (doArrayKeys tid t k args res).type = .array := by
  simp only [doArrayKeys]
  repeat' split
  all_goals rfl

/-- Claim C10: every function-valued property of an array wrapper other
than `indexOf` / `lastIndexOf` is replaced by a closure that delegates
to the native method and then publishes a `kind = array` operation —
for a method outside the mutator switch (e.g. `forEach`, `map`,
`includes`, `join`) with all four descriptor fields absent / `-1` —
and every reaction subscribed under the `length` key of the array is among
the reactions that operation reaches. -/
theorem C10_array_method_interception (pr : ObjId → Option ObjId)
    (tid : ObjId) (t : List Val) (name : String) (args : List Val)
    (native : List Val → List Val × Val) (s : DepState) (r : RId)
    (hname : name ∉ ["push", "pop", "shift", "unshift", "splice"]) :
    arrayMethodCall pr tid t (.other name args native)
      = ((native t).1, .v (native t).2,
         [{ type := .array, target := tid, key := some (.s name),
            inserted := none, insertedStart := some (-1),
            deleted := none, deletedStart := some (-1) }]) ∧
    (∀ m : ArrMethod, m.name ≠ "indexOf" → m.name ≠ "lastIndexOf" →
      ∀ op ∈ (arrayMethodCall pr tid t m).2.2, op.type = .array) ∧
    (r ∈ s.connectionStore tid (Key.s "length") →
      ∀ op ∈ (arrayMethodCall pr tid t (.other name args native)).2.2,
        r ∈ getReactionsForOperation s true op) := by
  simp only [List.mem_cons, List.not_mem_nil, or_false, not_or] at hname
  obtain ⟨h1, h2, h3, h4, h5⟩ := hname
  have hcall : arrayMethodCall pr tid t (.other name args native)
      = ((native t).1, .v (native t).2,
         [{ type := .array, target := tid, key := some (.s name),
            inserted := none, insertedStart := some (-1),
            deleted := none, deletedStart := some (-1) }]) := by
    rcases hn : native t with ⟨t1, rv⟩
    simp [arrayMethodCall, hn, doArrayKeys, h1, h2, h3, h4, h5]
  refine ⟨hcall, ?_, ?_⟩
  · intro m hm1 hm2 op hop
    cases m with
    | push items =>
        simp [arrayMethodCall, nativePush] at hop
        rw [hop]
        exact doArrayKeys_type_array _ _ _ _ _
    | pop =>
        simp [arrayMethodCall, nativePop] at hop
        rw [hop]
        exact doArrayKeys_type_array _ _ _ _ _
    | shift =>
        simp [arrayMethodCall, nativeShift] at hop
        rw [hop]
        exact doArrayKeys_type_array _ _ _ _ _
    | unshift items =>
        simp [arrayMethodCall, nativeUnshift] at hop
        rw [hop]
        exact doArrayKeys_type_array _ _ _ _ _
    | splice start deleteCount items =>
        simp [arrayMethodCall, nativeSplice] at hop
        rw [hop]
        exact doArrayKeys_type_array _ _ _ _ _
    | indexOf x =>
        simp only [ArrMethod.name] at hm1
        exact absurd rfl hm1
    | lastIndexOf x =>
        simp only [ArrMethod.name] at hm2
        exact absurd rfl hm2
    | other n args2 f =>
        rcases hf : f t with ⟨a, b⟩
        simp [arrayMethodCall, hf] at hop
        rw [hop]
        exact doArrayKeys_type_array _ _ _ _ _
  · intro hlen op hop
    rw [hcall] at hop
    obtain rfl := List.mem_singleton.mp hop
    show r ∈ s.connectionStore tid (Key.s name)
        ++ (s.connectionStore tid (Key.s "length")).filter
            (fun x => x ∉ s.connectionStore tid (Key.s name))
    by_cases hb : r ∈ s.connectionStore tid (Key.s name)
    · exact List.mem_append.mpr (Or.inl hb)
    · refine List.mem_append.mpr (Or.inr ?_)
      rw [List.mem_filter]
      exact ⟨hlen, by simpa using hb⟩

/-- Witness for C10: calling `forEach` through an array wrapper
delegates to the native behaviour and publishes an empty-descriptor
`array` operation that reaches reaction `3`, which subscribed under the
`length` key. -/
theorem C10_witness :
    arrayMethodCall (fun _ => none) 7 [Val.num 1]
      (.other "forEach" [] (fun l => (l, Val.undefined)))
      = ([Val.num 1], .v Val.undefined,
         [{ type := .array, target := 7, key := some (.s "forEach"),
            inserted := none, insertedStart := some (-1),
            deleted := none, deletedStart := some (-1) }]) ∧
    3 ∈ getReactionsForOperation
      ⟨fun o1 k1 => if o1 = 7 ∧ k1 = Key.s "length" then [3] else [],
        fun _ => [], fun _ => false, []⟩ true
      { type := .array, target := 7, key := some (.s "forEach"),
        inserted := none, insertedStart := some (-1),
        deleted := none, deletedStart := some (-1) } := by
  obtain ⟨hc, _, h3⟩ := C10_array_method_interception (fun _ => none) 7
    [Val.num 1] "forEach" [] (fun l => (l, Val.undefined))
    ⟨fun o1 k1 => if o1 = 7 ∧ k1 = Key.s "length" then [3] else [],
      fun _ => [], fun _ => false, []⟩ 3 (by decide)
  refine ⟨hc, h3 (by decide) _ ?_⟩
  rw [hc]
  exact List.mem_singleton.mpr rfl

end ReactiveObserve
